import Mathlib

/-!
# Verification of the rusalka VM core against its specification

Shallow embedding of the rusalka register-plus-stack bytecode VM
(`package rvm`): the tagged value tower (`Float`/`Int`/`Uint`), the
instruction codec (`mkBinaryInstr` and the bit-level decoders), the thread
state (registers with aliased PC/EBP/ESP, operand stack with explicit
backing storage, frame chain) and the fetch/dispatch loop.

Machine integers are modelled as `Int`/`Nat` with explicit reduction
modulo `2^64` (resp. `2^32`) where the Go code performs fixed-width
arithmetic.  IEEE-754 binary64 payloads are modelled as exact rationals;
none of the properties settled here depends on binary64 rounding, only on
the *tags* of float results and on float values that are exactly
representable.  The library function `math.Pow` is kept abstract by
passing it as an explicit function parameter.  Fallible Go code (panics,
runtime bounds errors) is modelled with `Except Fault`.
-/

namespace Rusalka

/-- Two's-complement reduction of an integer into the `int64` range
`[-2^63, 2^63)`, i.e. the value of a Go `int64` holding these bits. -/
def wrap64 (n : Int) : Int := ((n + 2 ^ 63) % 2 ^ 64) - 2 ^ 63

/-- Reduction of an integer to its `uint64` bit value in `[0, 2^64)`. -/
def uwrap64 (n : Int) : Nat := (n % 2 ^ 64).toNat

/-- Two's-complement reading of the low 32 bits of a natural number,
i.e. the Go conversion `int32(x)`. -/
def toI32 (n : Nat) : Int :=
  if n % 2 ^ 32 < 2 ^ 31 then (n % 2 ^ 32 : Int) else (n % 2 ^ 32 : Int) - 2 ^ 32

/-- Arithmetic (sign-extending) right shift of an `int32` value, as in the
Go expression `i >> k` on a signed operand: floor division by `2^k`. -/
def sar32 (n : Nat) (k : Nat) : Int := (toI32 n) >>> k

/-- Truncation of a rational toward zero, the Go conversion
`int64(f)` for an in-range binary64 value `f`. -/
def ratTrunc (q : ℚ) : Int := if 0 ≤ q then ⌊q⌋ else ⌈q⌉

/-- Addressing handles of the VM (`rvm.Index`): `RegisterIndex`,
`StackIndex` and `constIndex` are all integer-backed in the source. -/
inductive Idx
  | reg (n : Int)
  | stk (n : Int)
  | cst (n : Int)
deriving DecidableEq, Repr

/-- Faults raised by the VM core.  The first group mirrors the typed
error values of the source (`InvalidRegister`, `InvalidStackIndex`,
`InvalidConstIndex`, `ErrUnderflow`, `errConstStore`, `errEBPStore`, the
PC-store errors and the type-coercion panics); `indexBounds` and
`sliceBounds` stand for raw Go runtime panics (out-of-range indexing or
reslicing) that are *not* one of the VM's own error values. -/
inductive Fault
  | invalidRegister (n : Int)
  | invalidStackIndex (n : Int)
  | invalidConstIndex (n : Int)
  | invalidIndexType
  | underflow
  | pcRange (n : Int)
  | invalidPCType
  | constStore
  | ebpStore
  | typeFault
  | divByZero
  | badComparator
  | unimplementedOp
  | indexBounds
  | sliceBounds
deriving DecidableEq, Repr

/-- A runtime value (`rvm.Value = interface{}`).  `vnil` is the nil
interface value (the neutral/empty stack slot); `vint`, `vuint`, `vfloat`
are the tagged numeric kinds `rvm.Int`, `rvm.Uint`, `rvm.Float`.  Integer
payloads are kept reduced by the operations, float payloads are exact
rationals. -/
inductive Value
  | vnil
  | vint (i : Int)
  | vuint (n : Nat)
  | vfloat (q : ℚ)
deriving DecidableEq, Repr

/-- The numeric tag of a value, when it has one. -/
inductive Tag
  | int
  | uint
  | float
deriving DecidableEq, Repr

/-- `tagOf v` is the numeric tag of `v` (`none` for non-numeric values). -/
def tagOf : Value → Option Tag
  | .vint _ => some .int
  | .vuint _ => some .uint
  | .vfloat _ => some .float
  | .vnil => none

/-- `toarith` (part_000): the repository's own numeric values pass
through unchanged; the nil interface has no arithmetic capability and
panics. -/
def toarith : Value → Except Fault Value
  | .vnil => .error .typeFault
  | v => .ok v

/-- `tofloat` (part_000): coerce an arithmetic value to `Float`. -/
def tofloatQ : Value → Except Fault ℚ
  | .vfloat q => .ok q
  | .vint i => .ok (i : ℚ)
  | .vuint n => .ok (n : ℚ)
  | .vnil => .error .typeFault

/-- `toint` (part_000): coerce an arithmetic value to `Int`
(reinterpreting `Uint` bits, truncating `Float`). -/
def tointE : Value → Except Fault Int
  | .vint i => .ok i
  | .vuint n => .ok (wrap64 n)
  | .vfloat q => .ok (ratTrunc q)
  | .vnil => .error .typeFault

/-- `Neg` (part_000): `-lhs` on each numeric receiver; fixed-width
negation wraps. -/
def valueNeg : Value → Except Fault Value
  | .vint i => .ok (.vint (wrap64 (-i)))
  | .vuint n => .ok (.vuint (uwrap64 (-(n : Int))))
  | .vfloat q => .ok (.vfloat (-q))
  | .vnil => .error .typeFault

/-- `Add` (part_000): `Float.Add`, `Int.Add`, `Uint.Add`.  The result tag
follows the left operand except that a `Float` right operand forces
`Float`; mixed integer cases convert the right side through `int64`. -/
def valueAdd : Value → Value → Except Fault Value
  | .vfloat q, rhs =>
      match tofloatQ rhs with
      | .error e => .error e
      | .ok r => .ok (.vfloat (q + r))
  | .vint i, .vint j => .ok (.vint (wrap64 (i + j)))
  | .vint i, .vuint n => .ok (.vint (wrap64 (i + wrap64 n)))
  | .vint i, .vfloat q => .ok (.vfloat ((i : ℚ) + q))
  | .vuint x, .vuint n => .ok (.vuint (uwrap64 ((x : Int) + (n : Int))))
  | .vuint x, .vint j => .ok (.vuint (uwrap64 (wrap64 x + j)))
  | .vuint x, .vfloat q => .ok (.vfloat ((x : ℚ) + q))
  | _, _ => .error .typeFault

/-- `Sub` (part_000): `Float.Sub`, `Int.Sub`, `Uint.Sub`. -/
def valueSub : Value → Value → Except Fault Value
  | .vfloat q, rhs =>
      match tofloatQ rhs with
      | .error e => .error e
      | .ok r => .ok (.vfloat (q - r))
  | .vint i, .vint j => .ok (.vint (wrap64 (i - j)))
  | .vint i, .vuint n => .ok (.vint (wrap64 (i - wrap64 n)))
  | .vint i, .vfloat q => .ok (.vfloat ((i : ℚ) - q))
  | .vuint x, .vuint n => .ok (.vuint (uwrap64 ((x : Int) - (n : Int))))
  | .vuint x, .vint j => .ok (.vuint (uwrap64 (wrap64 x - j)))
  | .vuint x, .vfloat q => .ok (.vfloat ((x : ℚ) - q))
  | _, _ => .error .typeFault

/-- `Div` (part_000).  Go integer division truncates toward zero and
panics on a zero divisor; `Uint.Div` of a `Uint` right operand returns an
`Int`-tagged result (`return Int(uint64(lhs) / uint64(rhs))`). -/
def valueDiv : Value → Value → Except Fault Value
  | .vfloat q, rhs =>
      match tofloatQ rhs with
      | .error e => .error e
      | .ok r => .ok (.vfloat (q / r))
  | .vint i, .vint j =>
      if j = 0 then .error .divByZero else .ok (.vint (wrap64 (i.tdiv j)))
  | .vint i, .vuint n =>
      if wrap64 n = 0 then .error .divByZero
      else .ok (.vint (wrap64 (i.tdiv (wrap64 n))))
  | .vint i, .vfloat q => .ok (.vfloat ((i : ℚ) / q))
  | .vuint x, .vuint n =>
      if n % 2 ^ 64 = 0 then .error .divByZero
      else .ok (.vint (wrap64 ((x % 2 ^ 64) / (n % 2 ^ 64) : Nat)))
  | .vuint x, .vint j =>
      if j = 0 then .error .divByZero
      else .ok (.vuint (uwrap64 ((wrap64 x).tdiv j)))
  | .vuint x, .vfloat q => .ok (.vfloat ((x : ℚ) / q))
  | _, _ => .error .typeFault

/-- `Mod` (part_000).  Go `%` truncates toward zero (sign of the
dividend) and panics on a zero divisor; `Uint.Mod` of a `Uint` right
operand returns an `Int`-tagged result. -/
def valueMod : Value → Value → Except Fault Value
  | .vfloat q, rhs =>
      match tofloatQ rhs with
      | .error e => .error e
      | .ok r => .ok (.vfloat (q - r * (ratTrunc (q / r) : ℚ)))
  | .vint i, .vint j =>
      if j = 0 then .error .divByZero else .ok (.vint (wrap64 (i.tmod j)))
  | .vint i, .vuint n =>
      if wrap64 n = 0 then .error .divByZero
      else .ok (.vint (wrap64 (i.tmod (wrap64 n))))
  | .vint i, .vfloat q => .ok (.vfloat ((i : ℚ) - q * (ratTrunc ((i : ℚ) / q) : ℚ)))
  | .vuint x, .vuint n =>
      if n % 2 ^ 64 = 0 then .error .divByZero
      else .ok (.vint (wrap64 ((x % 2 ^ 64) % (n % 2 ^ 64) : Nat)))
  | .vuint x, .vint j =>
      if j = 0 then .error .divByZero
      else .ok (.vuint (uwrap64 ((wrap64 x).tmod j)))
  | .vuint x, .vfloat q => .ok (.vfloat ((x : ℚ) - q * (ratTrunc ((x : ℚ) / q) : ℚ)))
  | _, _ => .error .typeFault

/-! ## Thread state (src/rvm/thread.go) -/

/-- `rvm.funcData`: entry PC, code words and constants of a function. -/
structure FuncData where
  pc : Int
  code : List Nat
  consts : List Value
deriving DecidableEq, Repr

/-- `rvm.stackFrame`: the starting EBP of a frame plus its function. -/
structure Frame where
  ebp : Int
  fn : FuncData
deriving DecidableEq, Repr

/-- `rvm.Thread`.  The current frame is flattened into the thread as in
the source (`Thread` embeds `stackFrame` embeds `funcData`).  The Go
slice `stack` is modelled as its backing array `stackData` (length =
capacity) together with the slice length `stackLen`; slot values beyond
`stackLen` are observable through the backing array, which is what the
nulling-on-shrink contract is about. -/
structure Thread where
  pc : Int
  code : List Nat
  consts : List Value
  ebp : Int
  stackData : List Value
  stackLen : Nat
  frames : List Frame
  reg : List Value
deriving DecidableEq, Repr

/-- `Thread.growStack` (thread.go): grow the backing capacity to
`len + elems` if needed; the stack's length and visible contents do not
change, new capacity is zero (nil) filled. -/
def growStack (elems : Int) (th : Thread) : Thread :=
  let next : Int := (th.stackLen : Int) + elems
  if next ≤ (th.stackData.length : Int) then th
  else { th with
          stackData := th.stackData.take th.stackLen
            ++ List.replicate (next.toNat - th.stackLen) Value.vnil }

/-- `Thread.resizeStack` (thread.go): a no-op when `len ≤ top`; otherwise
nils out the tail `stack[top:len]` of the backing array and truncates the
length to `top`.  A negative `top` makes the Go reslice `th.stack[top:]`
panic. -/
def resizeStack (top : Int) (th : Thread) : Except Fault Thread :=
  if (th.stackLen : Int) ≤ top then .ok th
  else if top < 0 then .error .sliceBounds
  else .ok { th with
    stackData := th.stackData.take top.toNat
      ++ List.replicate (th.stackLen - top.toNat) Value.vnil
      ++ th.stackData.drop th.stackLen,
    stackLen := top.toNat }

/-- `Thread.copyAndResizeStack` (thread.go): move the top `keep` slots of
the stack down to `newTop` and resize to `newTop + keep`. -/
def copyAndResizeStack (newTop keep : Int) (th : Thread) : Except Fault Thread :=
  if keep < 0 then .error .underflow
  else if newTop < 0 then .error .underflow
  else if newTop + keep = (th.stackLen : Int) then .ok th
  else if 0 < keep then
    let oldTop : Int := (th.stackLen : Int) - keep
    if oldTop < newTop then .error .underflow
    else
      resizeStack (newTop + keep)
        { th with stackData := th.stackData.take newTop.toNat
            ++ (th.stackData.drop oldTop.toNat).take keep.toNat
            ++ th.stackData.drop (newTop.toNat + keep.toNat) }
  else resizeStack (newTop + keep) th

/-- `Thread.Push` (thread.go): append a value to the stack.  A Go
`append` reuses spare capacity or reallocates; either way the slot at the
old length receives `v` and the length grows by one. -/
def pushValue (v : Value) (th : Thread) : Thread :=
  if th.stackLen < th.stackData.length then
    { th with stackData := th.stackData.set th.stackLen v,
              stackLen := th.stackLen + 1 }
  else
    { th with stackData := th.stackData.take th.stackLen ++ [v],
              stackLen := th.stackLen + 1 }

/-- `Thread.Pop` (thread.go): underflow on an empty stack, else read the
top slot and resize the stack down by one. -/
def popValue (th : Thread) : Except Fault (Value × Thread) :=
  if th.stackLen = 0 then .error .underflow
  else
    match th.stackData.get? (th.stackLen - 1) with
    | none => .error .indexBounds
    | some v =>
        match resizeStack ((th.stackLen : Int) - 1) th with
        | .error e => .error e
        | .ok th' => .ok (v, th')

/-- `Thread.pushFrame` (thread.go): a positive `ebpOffset` is an invalid
stack index; then the underflow check `th.ebp - ebpOffset >
len(th.stack) + ebpOffset` as written in the source; on success the
previous frame descriptor is appended to the frame chain and the new
frame is installed with EBP `len(stack) + ebpOffset` and the function's
own PC, code and constants. -/
def pushFrame (ebpOffset : Int) (fn : FuncData) (th : Thread) : Except Fault Thread :=
  if 0 < ebpOffset then .error (.invalidStackIndex ((th.stackLen : Int) + ebpOffset))
  else if (th.stackLen : Int) + ebpOffset < th.ebp - ebpOffset then .error .underflow
  else .ok { th with
    frames := th.frames ++ [⟨th.ebp, ⟨th.pc, th.code, th.consts⟩⟩],
    ebp := (th.stackLen : Int) + ebpOffset,
    pc := fn.pc,
    code := fn.code,
    consts := fn.consts }

/-- `Thread.popFrame` (thread.go): underflow on an empty frame chain;
otherwise move the top `keep` slots down to the current EBP, drop the
last saved frame from the chain and restore it as the current frame. -/
def popFrame (keep : Int) (th : Thread) : Except Fault Thread :=
  match th.frames.getLast? with
  | none => .error .underflow
  | some fr =>
      match copyAndResizeStack th.ebp keep { th with frames := th.frames.dropLast } with
      | .error e => .error e
      | .ok th' => .ok { th' with
          ebp := fr.ebp, pc := fr.fn.pc, code := fr.fn.code, consts := fr.fn.consts }

/-! ## Index load/store (src/rvm/thread.go) -/

/-- `constIndex.load` (thread.go): the bound check is
`i < 0 || int(i) > len(th.consts)` — note `>` rather than `>=` — and the
subsequent Go indexing `th.consts[int(i)]` raises a runtime bounds panic
when `i` equals the length. -/
def constLoad (k : Int) (th : Thread) : Except Fault Value :=
  if k < 0 ∨ (th.consts.length : Int) < k then .error (.invalidConstIndex k)
  else
    match th.consts.get? k.toNat with
    | some v => .ok v
    | none => .error .indexBounds

/-- `StackIndex.abs` (thread.go): negative indices are top-relative
(`len(stack) + i`), non-negative ones frame-relative (`ebp + i`);
anything resolving outside `[0, len(stack))` is an invalid stack index. -/
def stackAbs (i : Int) (th : Thread) : Except Fault Nat :=
  let a : Int := if i < 0 then (th.stackLen : Int) + i else th.ebp + i
  if a < 0 ∨ (th.stackLen : Int) ≤ a then .error (.invalidStackIndex i)
  else .ok a.toNat

/-- `RegisterIndex.store` case 0 (thread.go): the PC accepts the integral
value kinds of this repository and rejects everything else. -/
def pcValue : Value → Option Int
  | .vint i => some i
  | .vuint n => some (wrap64 n)
  | _ => none

/-- `RegisterIndex.store` case 2 (thread.go): a write to ESP resizes the
stack to `int(toint(v))`: below EBP is underflow, below the current
length shrinks (nulling the tail), above the capacity grows the backing
and reslices, above the length reslices in place. -/
def espStore (v : Value) (th : Thread) : Except Fault Thread :=
  match tointE v with
  | .error e => .error e
  | .ok sp =>
      if sp < th.ebp then .error .underflow
      else if sp < (th.stackLen : Int) then resizeStack sp th
      else if (th.stackData.length : Int) < sp then
        let th2 := growStack (sp - th.stackData.length) th
        if sp ≤ (th2.stackData.length : Int) then .ok { th2 with stackLen := sp.toNat }
        else .error .sliceBounds
      else if (th.stackLen : Int) < sp then .ok { th with stackLen := sp.toNat }
      else .ok th

/-- `Index.load` for the three index shapes (thread.go): constants are a
checked read of the constants pool, stack indices resolve through `abs`,
register 0/1/2 are `Int` snapshots of PC/EBP/ESP and the rest are plain
cells of the 61-entry register file. -/
def idxLoad : Idx → Thread → Except Fault Value
  | .cst k, th => constLoad k th
  | .stk i, th =>
      match stackAbs i th with
      | .error e => .error e
      | .ok a =>
          match th.stackData.get? a with
          | some v => .ok v
          | none => .error .indexBounds
  | .reg n, th =>
      if n = 0 then .ok (.vint th.pc)
      else if n = 1 then .ok (.vint th.ebp)
      else if n = 2 then .ok (.vint th.stackLen)
      else
        let ri : Int := n - 3
        if ri < 0 ∨ (th.reg.length : Int) ≤ ri then .error (.invalidRegister n)
        else
          match th.reg.get? ri.toNat with
          | some v => .ok v
          | none => .error .indexBounds

/-- `Index.store` for the three index shapes (thread.go): writes through
a constant index are fatal; stack writes go through `abs`; register 0
writes the PC with a range check, register 1 is read-only, register 2
resizes the stack, the rest are plain cells. -/
def idxStore : Idx → Value → Thread → Except Fault Thread
  | .cst _, _, _ => .error .constStore
  | .stk i, v, th =>
      match stackAbs i th with
      | .error e => .error e
      | .ok a => .ok { th with stackData := th.stackData.set a v }
  | .reg n, v, th =>
      if n = 0 then
        match pcValue v with
        | none => .error .invalidPCType
        | some p =>
            if p < 0 ∨ (th.code.length : Int) < p then .error (.pcRange p)
            else .ok { th with pc := p }
      else if n = 1 then .error .ebpStore
      else if n = 2 then espStore v th
      else
        let ri : Int := n - 3
        if ri < 0 ∨ (th.reg.length : Int) ≤ ri then .error (.invalidRegister n)
        else .ok { th with reg := th.reg.set ri.toNat v }

/-- The canonical-empty-tail invariant: every backing-array slot at or
beyond the stack length holds the nil value. -/
def tailNil (th : Thread) : Prop :=
  ∀ v ∈ th.stackData.drop th.stackLen, v = Value.vnil

instance (th : Thread) : Decidable (tailNil th) :=
  inferInstanceAs (Decidable (∀ v ∈ th.stackData.drop th.stackLen, v = Value.vnil))

/-! ## Instruction codec (src/rvm/instr.go and the encoder of part_002) -/

/-- `opBinOutOff` (instr.go). -/
def opBinOutOff : Nat := 7
/-- `opBinOutLen` (instr.go). -/
def opBinOutLen : Nat := 6
/-- `opBinArgAOff` (instr.go). -/
def opBinArgAOff : Nat := 14
/-- `opBinArgALen` (instr.go). -/
def opBinArgALen : Nat := 6
/-- `opBinArgBOff` (instr.go). -/
def opBinArgBOff : Nat := 21
/-- `opBinArgBLen` (instr.go). -/
def opBinArgBLen : Nat := 11
/-- `opBinArgBStackLen` (instr.go). -/
def opBinArgBStackLen : Nat := 10
/-- `registerCount` (thread.go). -/
def registerCount : Int := 64

/-- `Instruction.isExt` (instr.go): the low bit of the first word marks a
two-word instruction. -/
def isExt (i : Nat) : Bool := i &&& 0x1 ≠ 0

/-- `Instruction.Opcode` (instr.go): 5-bit primary opcode, widening to 12
bits when the extension bit is set. -/
def instrOpcode (i : Nat) : Nat :=
  if i &&& 0x1 ≠ 0 then (i &&& (0xFFF <<< 1)) >>> 1
  else (i &&& (0x1F <<< 1)) >>> 1

/-- `Instruction.regOut` (instr.go): output operand of a binary
instruction — a 6-bit sign-extended stack offset when the `OutStack` flag
(bit 6) is set, else a 6-bit register number. -/
def regOut (i : Nat) : Idx :=
  if i &&& 0x40 ≠ 0 then .stk (sar32 ((i <<< (32 - (opBinOutOff + opBinOutLen))) % 2 ^ 32) (32 - opBinOutLen))
  else .reg (((i >>> opBinOutOff) &&& 0x3F : Nat) : Int)

/-- `Instruction.argA` (instr.go). -/
def argA (i : Nat) : Idx :=
  if i &&& 0x2000 ≠ 0 then
    .stk (sar32 (((i &&& ((2 ^ opBinArgALen - 1) <<< opBinArgAOff)) <<< (32 - (opBinArgAOff + opBinArgALen))) % 2 ^ 32) (32 - opBinArgALen))
  else .reg (((i >>> opBinArgAOff) &&& 0x3F : Nat) : Int)

/-- `Instruction.argB` (instr.go): an 11-bit constant index when the
`ArgBConst` flag (bit 20) is set, a 10-bit sign-extended stack offset
when the `ArgBStack` flag (bit 31) is set, else a register number. -/
def argB (i : Nat) : Idx :=
  if i &&& 0x100000 ≠ 0 then
    .cst (((i &&& ((2 ^ opBinArgBLen - 1) <<< opBinArgBOff)) >>> opBinArgBOff : Nat) : Int)
  else if i &&& 0x80000000 ≠ 0 then
    .stk (sar32 (((i &&& ((2 ^ opBinArgBLen - 1) <<< opBinArgBOff)) <<< (32 - (opBinArgBOff + opBinArgBStackLen))) % 2 ^ 32) (32 - opBinArgBStackLen))
  else .reg (((i >>> opBinArgBOff) &&& 0x3F : Nat) : Int)

/-- `Instruction.cmpOp` (instr.go): 3-bit comparator selector. -/
def cmpOp (i : Nat) : Nat := (i &&& (0x7 <<< 6)) >>> 6

/-- `Instruction.cmpWant` (instr.go): the `Want` bit (bit 9). -/
def cmpWant (i : Nat) : Bool := i &&& 0x200 ≠ 0

/-- `Instruction.cmpArgA` (instr.go). -/
def cmpArgA (i : Nat) : Idx :=
  if i &&& 0x400 ≠ 0 then .cst (((i &&& (0x3FF <<< 11)) >>> 11 : Nat) : Int)
  else if i &&& 0x100000 ≠ 0 then
    .stk (sar32 ((i <<< (32 - (11 + 9))) % 2 ^ 32) (32 - 9))
  else .reg ((((i &&& (0x3FF <<< 11)) >>> 11) &&& 0x3F : Nat) : Int)

/-- `Instruction.cmpArgB` (instr.go). -/
def cmpArgB (i : Nat) : Idx :=
  if i &&& 0x200000 ≠ 0 then .cst (((i &&& (0x3FF <<< 22)) >>> 22 : Nat) : Int)
  else if i &&& 0x80000000 ≠ 0 then
    .stk (sar32 ((i <<< (32 - (22 + 9))) % 2 ^ 32) (32 - 9))
  else .reg ((((i &&& (0x3FF <<< 22)) >>> 22) &&& 0x3F : Nat) : Int)

/-- `Instruction.jumpOffset` (instr.go): a 25-bit signed literal offset
when the literal flag (bit 6) is set, else a constant, stack or register
index whose loaded value is the offset. -/
def jumpOffset (i : Nat) : Int × Option Idx :=
  if i &&& 0x40 ≠ 0 then (sar32 ((i <<< (32 - (7 + 25))) % 2 ^ 32) (32 - 25), none)
  else if i &&& 0x80 ≠ 0 then (0, some (.cst ((((i &&& ((2 ^ 24 - 1) <<< 8)) >>> 8) : Nat) : Int)))
  else if i &&& 0x80000000 ≠ 0 then (0, some (.stk (sar32 ((i <<< (32 - (8 + 23))) % 2 ^ 32) (32 - 23))))
  else (0, some (.reg (((i >>> 8) &&& 0x3F : Nat) : Int)))

/-- `canStore` (part_002): does `i` fit in a signed field of `bits`
bits. -/
def canStore (i : Int) (bits : Nat) : Prop :=
  -(2 ^ (bits - 1)) ≤ i ∧ i ≤ 2 ^ (bits - 1) - 1

instance (i : Int) (bits : Nat) : Decidable (canStore i bits) :=
  inferInstanceAs (Decidable (_ ∧ _))

/-- `canStoreUnsigned` (part_002). -/
def canStoreUnsigned (i : Int) (bits : Nat) : Prop :=
  i ≤ 2 ^ bits - 1

instance (i : Int) (bits : Nat) : Decidable (canStoreUnsigned i bits) :=
  inferInstanceAs (Decidable (_ ≤ _))

/-- `signedBits32` (part_002): place the low `length` bits of `i` at
`pos`, going through the 32-bit shifts of the source. -/
def signedBits32 (i : Int) (pos length : Nat) : Nat :=
  ((uwrap32 (i * 2 ^ (32 - length))) >>> (32 - (length + pos))) &&& ((2 ^ length - 1) <<< pos)
where
  /-- Go's `uint32(x)` reinterpretation of a (wrapped) `int32`. -/
  uwrap32 (z : Int) : Nat := (z % 2 ^ 32).toNat

/-- `unsignedBits32` (part_002). -/
def unsignedBits32 (i : Nat) (pos length : Nat) : Nat :=
  (i &&& (2 ^ length - 1)) <<< pos

/-- `registerOp` (part_002): note the bound is `r > registerCount`, so the
check admits `r = 64`. -/
def registerOp (r : Int) (pos : Nat) : Except Fault Nat :=
  if r < 0 ∨ registerCount < r then .error (.invalidRegister r)
  else .ok ((r.toNat &&& 0x3F) <<< pos)

/-- `opcodeBits` (part_002). -/
def opcodeBits (op : Nat) : Nat := (op &&& (2 ^ 5 - 1)) <<< 1

/-- `mkBinaryInstr` (part_002, lines 189–234): encoder for the binary
instruction shape.  The validation bounds are exactly the source's: the
stack-out check uses `opBinOutOff` and the stack-argB check uses
`opBinArgBLen`, each one constant wider than the field actually
written. -/
def mkBinaryInstr (op : Nat) (out argAi argBi : Idx) : Except Fault Nat :=
  let i0 := opcodeBits op
  match (match out with
    | .reg r => registerOp r opBinOutOff
    | .stk s =>
        if canStore s opBinOutOff then .ok (signedBits32 s opBinOutOff opBinOutLen ||| 0x40)
        else .error (.invalidRegister s)
    | .cst _ => .error .invalidIndexType : Except Fault Nat) with
  | .error e => .error e
  | .ok b1 =>
    match (match argAi with
      | .reg r => registerOp r opBinArgAOff
      | .stk s =>
          if canStore s opBinArgALen then .ok (signedBits32 s opBinArgAOff opBinArgALen ||| 0x2000)
          else .error (.invalidRegister s)
      | .cst _ => .error .invalidIndexType : Except Fault Nat) with
    | .error e => .error e
    | .ok b2 =>
      match (match argBi with
        | .reg r => registerOp r opBinArgBOff
        | .cst c =>
            if canStoreUnsigned c opBinArgBLen then
              .ok (unsignedBits32 c.toNat opBinArgBOff opBinArgBLen ||| 0x100000)
            else .error (.invalidConstIndex c)
        | .stk s =>
            if canStore s opBinArgBLen then
              .ok (signedBits32 s opBinArgBOff opBinArgBStackLen ||| 0x80000000)
            else .error (.invalidRegister s) : Except Fault Nat) with
      | .error e => .error e
      | .ok b3 => .ok (i0 ||| b1 ||| b2 ||| b3)

/-! ## Pow (part_000) -/

/-- The body of the iterative `Pow` loop on `Int`:
`for q, i := lhs, Int(0); i < rhs; i++ { lhs = lhs * q }` — `count`
iterations, each replacing the accumulator by `acc * q` with wrapping
64-bit multiplication. -/
def powLoopI (q : Int) : Nat → Int → Int
  | 0, acc => acc
  | n + 1, acc => powLoopI q n (wrap64 (acc * q))

/-- The same loop on `Uint` with unsigned wrapping multiplication. -/
def powLoopU (q : Nat) : Nat → Nat → Nat
  | 0, acc => acc
  | n + 1, acc => powLoopU q n ((acc * q) % 2 ^ 64)

/-- `Pow` (part_000, `Int.Pow` and `Uint.Pow`): a zero integer exponent
yields `Uint(1)`; a negative integer exponent or any float operand
delegates to binary64 `pow` (the abstract `fpow`); a positive integer
exponent runs the iterative multiply loop that many times starting from
the base itself. -/
def valuePow (fpow : ℚ → ℚ → ℚ) : Value → Value → Except Fault Value
  | .vfloat q, rhs =>
      match tofloatQ rhs with
      | .error e => .error e
      | .ok r => .ok (.vfloat (fpow q r))
  | .vint i, .vint j =>
      if j = 0 then .ok (.vuint 1)
      else if j < 0 then .ok (.vfloat (fpow (i : ℚ) (j : ℚ)))
      else .ok (.vint (powLoopI i j.toNat i))
  | .vint i, .vuint m =>
      if m % 2 ^ 64 = 0 then .ok (.vuint 1)
      else .ok (.vint (powLoopI i (m % 2 ^ 64) i))
  | .vint i, .vfloat q => .ok (.vfloat (fpow (i : ℚ) q))
  | .vuint x, .vuint m =>
      if m % 2 ^ 64 = 0 then .ok (.vuint 1)
      else .ok (.vuint (powLoopU x (m % 2 ^ 64) x))
  | .vuint x, .vint j =>
      if j = 0 then .ok (.vuint 1)
      else if j < 0 then .ok (.vfloat (fpow (x : ℚ) (j : ℚ)))
      else .ok (.vuint (powLoopU x j.toNat x))
  | .vuint x, .vfloat q => .ok (.vfloat (fpow (x : ℚ) q))
  | _, _ => .error .typeFault

/-! ## Run loop and the fused test+jump (src/rvm/thread.go, opcode.go) -/

/-- One fetch of `Thread.Run` (thread.go, lines 152–163), exactly as
written: capture `pc`, increment the thread PC, read the word at the
captured `pc`; when its extension bit is set and the incremented PC is
still inside the code, increment the PC again and merge the word read *at
the captured `pc`* (the source indexes `th.code[pc]` a second time) into
the high 32 bits.  Returns the decoded instruction and the new PC, or
`none` when the PC is outside the code (the loop exits). -/
def runFetch (code : List Nat) (pc0 : Int) : Option (Nat × Int) :=
  if 0 ≤ pc0 ∧ pc0 < (code.length : Int) then
    let instr := code.getD pc0.toNat 0
    if isExt instr ∧ pc0 + 1 < (code.length : Int) then
      some (instr ||| (code.getD pc0.toNat 0) <<< 32, pc0 + 2)
    else some (instr, pc0 + 1)
  else none

/-- Modelled from the spec: `Thread.step` is called by the `Test` handler
(opcode.go) but its definition is not under `src/`.  Per §4.4 and §9 of
the spec, it inspects the instruction at the current PC — the extension
bit of the first word being the sole signal for a second word — and
reports its word count, the (correctly merged) instruction and whether a
next instruction exists; with `commit` set it advances the PC past that
instruction. -/
def step (commit : Bool) (th : Thread) : (Int × Nat × Bool) × Thread :=
  if 0 ≤ th.pc ∧ th.pc < (th.code.length : Int) then
    let w0 := th.code.getD th.pc.toNat 0
    let sz : Int := if isExt w0 ∧ th.pc + 1 < (th.code.length : Int) then 2 else 1
    let instr :=
      if isExt w0 ∧ th.pc + 1 < (th.code.length : Int) then
        w0 ||| (th.code.getD (th.pc.toNat + 1) 0) <<< 32
      else w0
    ((sz, instr, true), if commit then { th with pc := th.pc + sz } else th)
  else ((0, 0, false), th)

/-- `lessThan` (instr.go): a type switch on the `LessComparator`
capability.  No type of this repository implements `LessThan`, so for
every operand constructible here — in particular for the `Index` values
the `Test` handler actually passes — the default arm returns `false`. -/
def lessThan (lhs rhs : Idx) : Except Fault Bool :=
  match lhs, rhs with
  | _, _ => .ok false

/-- `lessEqual` (instr.go): same situation as `lessThan` — no repository
type implements `LessEqual` (or `LessThan`/`EqualTo`), so the default arm
returns `false`. -/
def lessEqual (lhs rhs : Idx) : Except Fault Bool :=
  match lhs, rhs with
  | _, _ => .ok false

/-- `equalTo` (instr.go): same situation — the default arm returns
`false`. -/
def equalTo (lhs rhs : Idx) : Except Fault Bool :=
  match lhs, rhs with
  | _, _ => .ok false

/-- `compareOp.comparator` (instr.go): the expected boolean and the
comparison function per comparator opcode; `includes`/`excludes` and
unknown opcodes yield a function that panics when invoked. -/
def comparator (c : Nat) : Bool × (Idx → Idx → Except Fault Bool) :=
  match c with
  | 0 => (true, lessThan)
  | 1 => (true, lessEqual)
  | 2 => (true, equalTo)
  | 3 => (false, equalTo)
  | 4 => (false, lessEqual)
  | 5 => (false, lessThan)
  | _ => (false, fun _ _ => .error .badComparator)

/-- `OpJump` number in the opcode table (opcode.go). -/
def opJumpCode : Nat := 15

/-- `opFuncTable[OpTest]` (opcode.go, lines 210–232), operating on the
thread state left by `Run` (PC already past the `Test` instruction).  The
source passes the raw `cmpArgA`/`cmpArgB` *indices* to the comparison
function without loading them.  On a failed test the next instruction is
skipped; on a passed test, when the next instruction is a `Jump`, that
jump is applied immediately. -/
def opTestExec (instr : Nat) (th : Thread) : Except Fault Thread :=
  let op := cmpOp instr
  let (want, fn) := comparator op
  let lhs := cmpArgA instr
  let rhs := cmpArgB instr
  match fn lhs rhs with
  | .error e => .error e
  | .ok r =>
      if (r == want) ≠ cmpWant instr then
        .ok (step true th).2
      else
        let ((sz, ji, ok), _) := step false th
        if ok ∧ instrOpcode ji = opJumpCode then
          match jumpOffset ji with
          | (off, none) => .ok { th with pc := th.pc + sz + off }
          | (_, some ix) =>
              match idxLoad ix th with
              | .error e => .error e
              | .ok v =>
                  match tointE v with
                  | .error e => .error e
                  | .ok t => .ok { th with pc := th.pc + sz + t }
        else .ok th

/-! ## Theorems -/

/-- **C1.**  One iteration of the run loop on the two-word code stream
`[1, 9]` starting at PC 0: the first word `1` has its extension bit set
and a next word exists, and the PC is correctly post-incremented by the
word count 2 — but the merged instruction is `1 ||| 1 <<< 32`
(`4294967297`), i.e. the run loop merges the word at the *captured* PC a
second time instead of the following word `9`, so the decoded instruction
differs from the one the claim (and the spec) prescribes. -/
theorem run_loop_merges_first_word_twice :
    runFetch [1, 9] 0 = some (4294967297, 2)
      ∧ (4294967297 : Nat) ≠ 1 ||| 9 <<< 32 := by
  constructor
  · rfl
  · decide

/-- **C2.**  A `Test` instruction (word `6293020`, i.e.
`test (const[0] < const[1]) == true`) on a thread whose constants are
`Int 1` and `Int 2`: the values loaded through the argument indices are
`1` and `2`, so the `<` comparison is true and equals `Want = true`, and
the next instruction (word `350`) is `jump 2` — by the claim the jump
must be executed (final PC `1 + 1 + 2 = 4`).  The handler instead passes
the raw indices to the comparison function, which no repository type
satisfies, so the test is judged failed and the jump is skipped: the
final PC is `2`. -/
theorem test_handler_compares_indices_not_values :
    cmpArgA 6293020 = .cst 0 ∧ cmpArgB 6293020 = .cst 1
      ∧ cmpWant 6293020 = true
      ∧ idxLoad (cmpArgA 6293020)
          { pc := 1, code := [6293020, 350], consts := [.vint 1, .vint 2],
            ebp := 0, stackData := [], stackLen := 0, frames := [], reg := [] }
          = .ok (.vint 1)
      ∧ idxLoad (cmpArgB 6293020)
          { pc := 1, code := [6293020, 350], consts := [.vint 1, .vint 2],
            ebp := 0, stackData := [], stackLen := 0, frames := [], reg := [] }
          = .ok (.vint 2)
      ∧ instrOpcode 350 = opJumpCode ∧ jumpOffset 350 = (2, none)
      ∧ opTestExec 6293020
          { pc := 1, code := [6293020, 350], consts := [.vint 1, .vint 2],
            ebp := 0, stackData := [], stackLen := 0, frames := [], reg := [] }
          = .ok { pc := 2, code := [6293020, 350], consts := [.vint 1, .vint 2],
                  ebp := 0, stackData := [], stackLen := 0, frames := [], reg := [] }
      ∧ (2 : Int) ≠ 4 := by
  refine ⟨rfl, rfl, rfl, rfl, rfl, rfl, rfl, rfl, by decide⟩

/-- **C3 counterexample.**  `Uint(6).Div(Uint(3))` succeeds and its
result is tagged `Int`, not `Uint` as the claim states for a `Uint` left
operand with a non-`Float` right operand. -/
theorem uint_div_uint_yields_int_tag :
    valueDiv (.vuint 6) (.vuint 3) = .ok (.vint 2)
      ∧ tagOf (.vint 2) = some Tag.int
      ∧ some Tag.int ≠ some Tag.uint := by
  refine ⟨rfl, rfl, by decide⟩

/-- **C4.**  The encoder accepts the out operand `StackIndex(-33)`, which
does not fit the 6-bit signed out field (its range check uses the
constant `opBinOutOff = 7` instead of `opBinOutLen = 6`), and produces
word `4032`, which decodes with out = `stack[31]` — so the encoder fails
to raise an encode-time fault for an operand value the decoder cannot
reproduce. -/
theorem encoder_accepts_unrepresentable_out_operand :
    mkBinaryInstr 0 (.stk (-33)) (.reg 0) (.reg 0) = .ok 4032
      ∧ regOut 4032 = .stk 31
      ∧ Idx.stk 31 ≠ .stk (-33) := by
  refine ⟨rfl, rfl, by decide⟩

/-- **C5.**  A thread with EBP 0 and a two-slot stack satisfies the
claim's precondition for `push_frame(-2, fn)` — `len(stack) + ebpOffset =
0 ≥ EBP = 0` — yet the source's underflow check
`th.ebp - ebpOffset > len(th.stack) + ebpOffset` (which double-counts the
offset) rejects it with a stack-underflow fault. -/
theorem push_frame_rejects_claimed_precondition :
    pushFrame (-2) ⟨0, [], []⟩
        { pc := 0, code := [], consts := [], ebp := 0,
          stackData := [.vint 1, .vint 2], stackLen := 2, frames := [], reg := [] }
        = .error .underflow
      ∧ (2 : Int) + (-2) ≥ 0 := by
  refine ⟨rfl, by decide⟩

/-- **C6.**  For any binary64 `pow` function, `Int(2).Pow(Int(1))`
evaluates to `Int(4)`: the iterative loop multiplies the accumulator —
which starts at the base — once per exponent step, producing
`b^(e+1)` instead of the claimed `b^e = 2`. -/
theorem int_pow_off_by_one (fpow : ℚ → ℚ → ℚ) :
    valuePow fpow (.vint 2) (.vint 1) = .ok (.vint 4)
      ∧ Value.vint 4 ≠ .vint (2 ^ 1) := by
  refine ⟨rfl, by decide⟩

/-- **C7.**  With a single-entry constants pool, loading `Const(1)` —
`k = len(consts)`, outside the claimed valid range — passes the source's
bound check (`int(i) > len(th.consts)`, not `>=`) and then fails with a
raw Go index-bounds panic rather than the `InvalidConstIndex` fault the
claim requires. -/
theorem const_load_at_length_raises_wrong_fault :
    constLoad 1
        { pc := 0, code := [], consts := [.vint 7], ebp := 0,
          stackData := [], stackLen := 0, frames := [], reg := [] }
        = .error .indexBounds
      ∧ Fault.indexBounds ≠ .invalidConstIndex 1 := by
  refine ⟨rfl, by decide⟩

/-- The result-tag table of the source for `Add` and `Sub`: determined
by the left operand, except that a `Float` right operand forces
`Float`.  (This is also what the claim states for all four
operations.) -/
def addSubTag : Tag → Tag → Tag
  | .float, _ => .float
  | .int, tb => if tb = .float then .float else .int
  | .uint, tb => if tb = .float then .float else .uint

/-- The result-tag table of the source for `Div` and `Mod`: as
`addSubTag`, except that the `Uint`/`Uint` case produces an `Int`-tagged
result (`Uint.Div` and `Uint.Mod` return `Int(...)` for a `Uint` right
operand). -/
def divModTag : Tag → Tag → Tag
  | .float, _ => .float
  | .int, tb => if tb = .float then .float else .int
  | .uint, .uint => .int
  | .uint, .int => .uint
  | .uint, .float => .float

/-- **C3 (amended).**  For every pair of tagged numeric values, the
result tag of `Add` and `Sub` is determined by the left operand (`Float`
left gives `Float`; `Int` or `Uint` left give that tag unless the right
operand is `Float`); for `Div` and `Mod` the same holds except that a
`Uint` left operand with a `Uint` right operand yields an `Int`-tagged
result. -/
theorem binary_result_tags (a b : Value) (ta tb : Tag)
    (ha : tagOf a = some ta) (hb : tagOf b = some tb) :
    (∀ r, valueAdd a b = .ok r → tagOf r = some (addSubTag ta tb))
    ∧ (∀ r, valueSub a b = .ok r → tagOf r = some (addSubTag ta tb))
    ∧ (∀ r, valueDiv a b = .ok r → tagOf r = some (divModTag ta tb))
    ∧ (∀ r, valueMod a b = .ok r → tagOf r = some (divModTag ta tb)) := by
  cases a <;> cases b <;>
    simp only [tagOf, Option.some.injEq, reduceCtorEq] at ha hb <;>
    subst ha <;> subst hb <;>
    refine ⟨?_, ?_, ?_, ?_⟩ <;>
    intro r hr <;>
    simp only [valueAdd, valueSub, valueDiv, valueMod, tofloatQ] at hr <;>
    first
      | (split_ifs at hr <;> cases hr <;> rfl)
      | (cases hr; rfl)

/-- Witness for `binary_result_tags` at `Uint(6)` and `Uint(3)`. -/
theorem binary_result_tags_witness :
    tagOf (Value.vuint 6) = some Tag.uint
      ∧ tagOf (Value.vint 2) = some (divModTag Tag.uint Tag.uint) :=
  ⟨rfl, (binary_result_tags (.vuint 6) (.vuint 3) .uint .uint rfl rfl).2.2.1
      (.vint 2) rfl⟩

/-- Well-formedness of a value's payload: integer payloads hold the
value of the underlying 64-bit machine word.  Every value produced by
the arithmetic operations is well formed. -/
def ValueWf : Value → Prop
  | .vint i => -(2 ^ 63) ≤ i ∧ i < 2 ^ 63
  | .vuint n => n < 2 ^ 64
  | _ => True

/-- The right operands whose `Neg` does not wrap: any `Int` other than
`-2^63`, only the zero `Uint`, and any float. -/
def negNoWrap : Value → Prop
  | .vint i => i ≠ -(2 ^ 63)
  | .vuint n => n = 0
  | _ => True

/-- `wrap64` is the identity on the `int64` range. -/
theorem wrap64_self {z : Int} (h1 : -(2 ^ 63) ≤ z) (h2 : z < 2 ^ 63) :
    wrap64 z = z := by
  unfold wrap64; omega

/-- **C10 (amended).**  The direct-subtraction handler value
`a.Sub(b)` and the add-of-negation handler value `a.Add(b.Neg())` agree
— with identical tags, including at the 64-bit wrap-around boundaries —
whenever the left operand is `Int`- or `Uint`-tagged (any right
operand), or the right operand's negation does not wrap (any `Float`
right operand, an `Int` right operand other than `-2^63`, or the `Uint`
right operand `0`).  They differ when a `Float` left operand meets a
nonzero `Uint` or the `Int` `-2^63` on the right, because the wrapped
negation is coerced to float as a different number. -/
theorem sub_matches_add_of_neg (a b : Value) (hwb : ValueWf b)
    (h : tagOf a = some .int ∨ tagOf a = some .uint ∨ negNoWrap b) :
    valueSub a b = Except.bind (valueNeg b) (valueAdd a) := by
  cases a with
  | vnil => cases b <;> rfl
  | vint i =>
    cases b with
    | vnil => rfl
    | vfloat r =>
        simp only [valueSub, valueNeg, valueAdd, Except.bind, sub_eq_add_neg]
    | vint j =>
        have hq : wrap64 (i - j) = wrap64 (i + wrap64 (-j)) := by
          unfold wrap64; omega
        simp only [valueSub, valueNeg, valueAdd, Except.bind, hq]
    | vuint n =>
        have hq : wrap64 (i - wrap64 (n : Int))
            = wrap64 (i + wrap64 ((uwrap64 (-(n : Int)) : Nat) : Int)) := by
          unfold wrap64 uwrap64; omega
        simp only [valueSub, valueNeg, valueAdd, Except.bind, hq]
  | vuint x =>
    cases b with
    | vnil => rfl
    | vfloat r =>
        simp only [valueSub, valueNeg, valueAdd, Except.bind, sub_eq_add_neg]
    | vint j =>
        have hq : uwrap64 (wrap64 (x : Int) - j)
            = uwrap64 (wrap64 (x : Int) + wrap64 (-j)) := by
          unfold wrap64 uwrap64; omega
        simp only [valueSub, valueNeg, valueAdd, Except.bind, hq]
    | vuint n =>
        have hq : uwrap64 ((x : Int) - n)
            = uwrap64 ((x : Int) + ((uwrap64 (-(n : Int)) : Nat) : Int)) := by
          unfold uwrap64; omega
        simp only [valueSub, valueNeg, valueAdd, Except.bind, hq]
  | vfloat q =>
    have hnb : negNoWrap b := by
      rcases h with h | h | h <;> simp_all [tagOf]
    cases b with
    | vnil => rfl
    | vfloat r =>
        simp only [valueSub, valueNeg, valueAdd, tofloatQ, Except.bind, sub_eq_add_neg]
    | vint j =>
        have hj : j ≠ -(2 ^ 63) := hnb
        have hw : -(2 ^ 63) ≤ j ∧ j < 2 ^ 63 := hwb
        have hq : wrap64 (-j) = -j := wrap64_self (by omega) (by omega)
        simp only [valueSub, valueNeg, valueAdd, tofloatQ, Except.bind, hq,
          sub_eq_add_neg, Int.cast_neg]
    | vuint n =>
        have hn : n = 0 := hnb
        subst hn
        simp only [valueSub, valueNeg, valueAdd, tofloatQ, Except.bind]
        norm_num [uwrap64]

/-- Witness for `sub_matches_add_of_neg` at `Int(5)` and `Int(3)`. -/
theorem sub_matches_add_of_neg_witness :
    valueSub (.vint 5) (.vint 3) = Except.bind (valueNeg (.vint 3)) (valueAdd (.vint 5)) :=
  sub_matches_add_of_neg (.vint 5) (.vint 3) (by constructor <;> decide) (Or.inl rfl)

/-- **C10 counterexample.**  For the left operand `Float(0)` and the
right operand `Uint(1)`, the direct subtraction handler stores
`Float(-1)` while the add-of-negation handler stores
`Float(2^64 - 1)` (the unsigned negation of `1` wraps before the float
coercion): the two handlers disagree. -/
theorem sub_neq_add_neg_at_float_uint :
    valueSub (.vfloat 0) (.vuint 1) = .ok (.vfloat (-1))
      ∧ Except.bind (valueNeg (.vuint 1)) (valueAdd (.vfloat 0))
          = .ok (.vfloat (18446744073709551615 : ℚ))
      ∧ Value.vfloat (-1) ≠ .vfloat (18446744073709551615 : ℚ) := by
  refine ⟨?_, ?_, ?_⟩
  · norm_num [valueSub, tofloatQ]
  · norm_num [valueNeg, valueAdd, tofloatQ, uwrap64, Except.bind]
    rw [show ((18446744073709551615 : Int).toNat : ℚ)
          = ((18446744073709551615 : ℕ) : ℚ) from rfl]
    norm_num
  · simp only [ne_eq, Value.vfloat.injEq]
    norm_num

/-- The claim's observable contract for a successful `store(i, v)`
followed by `load(i)`: a constant store never succeeds; a stack or plain
register store is read back verbatim; a PC store lands the (range-checked)
integral value in the PC and the load returns its `Int` snapshot; an EBP
store never succeeds; an ESP store resizes the stack to the converted
value and the load returns the `Int` snapshot of the new length. -/
def storeLoadSpec (i : Idx) (v : Value) (th th' : Thread) : Prop :=
  match i with
  | .cst _ => False
  | .stk _ => idxLoad i th' = .ok v
  | .reg n =>
      if n = 0 then
        ∃ p, pcValue v = some p ∧ 0 ≤ p ∧ p ≤ (th.code.length : Int)
          ∧ th' = { th with pc := p } ∧ idxLoad (.reg 0) th' = .ok (.vint p)
      else if n = 1 then False
      else if n = 2 then
        ∃ sp, tointE v = .ok sp ∧ th.ebp ≤ sp ∧ (th'.stackLen : Int) = sp
          ∧ idxLoad (.reg 2) th' = .ok (.vint sp)
      else idxLoad i th' = .ok v

/-- A successful `StackIndex.abs` resolution is below the stack length. -/
theorem stackAbs_lt {s : Int} {th : Thread} {a : Nat}
    (h : stackAbs s th = .ok a) : a < th.stackLen := by
  unfold stackAbs at h
  by_cases hs : s < 0
  · rw [if_pos hs] at h
    simp only [] at h
    split at h
    · cases h
    · next hc =>
        injection h with h'
        subst h'
        omega
  · rw [if_neg hs] at h
    simp only [] at h
    split at h
    · cases h
    · next hc =>
        injection h with h'
        subst h'
        omega

/-- A successful ESP store converted `v` to an integer `sp ≥ EBP` and
left the stack length equal to `sp`. -/
theorem espStore_ok_spec {v : Value} {th th' : Thread} (h : espStore v th = .ok th') :
    ∃ sp, tointE v = .ok sp ∧ th.ebp ≤ sp ∧ (th'.stackLen : Int) = sp := by
  unfold espStore at h
  split at h
  · cases h
  · next sp hsp =>
      refine ⟨sp, hsp, ?_⟩
      split at h
      · cases h
      · next h1 =>
        split at h
        · next h2 =>
            unfold resizeStack at h
            split at h
            · next hc => omega
            · split at h
              · cases h
              · next hneg =>
                  injection h with h'
                  subst h'
                  constructor
                  · omega
                  · show ((sp.toNat : Nat) : Int) = sp
                    omega
        · next h2 =>
          split at h
          · next h3 =>
              simp only [] at h
              split at h
              · next h4 =>
                  injection h with h'
                  subst h'
                  exact ⟨by omega, by show ((sp.toNat : Nat) : Int) = sp; omega⟩
              · cases h
          · next h3 =>
            split at h
            · next h4 =>
                injection h with h'
                subst h'
                exact ⟨by omega, by show ((sp.toNat : Nat) : Int) = sp; omega⟩
            · next h4 =>
                injection h with h'
                subst h'
                exact ⟨by omega, by omega⟩


/-- **C8.**  For every index, value and thread: when `store(i, v)`
succeeds, an immediately following `load(i)` returns `v`, unless `i`
resolves to one of the aliased registers, in which case the side-effect
contract holds: PC gets the range-checked integral value and reads back
as its `Int` snapshot, EBP writes never succeed, and ESP writes leave the
stack length equal to the converted value and read back as its `Int`
snapshot. -/
theorem store_then_load (i : Idx) (v : Value) (th th' : Thread)
    (hlen : th.stackLen ≤ th.stackData.length)
    (h : idxStore i v th = .ok th') : storeLoadSpec i v th th' := by
  cases i with
  | cst k => cases h
  | stk s =>
      simp only [idxStore] at h
      split at h
      · cases h
      · next a habs =>
          injection h with h'
          subst h'
          have ha : a < th.stackLen := stackAbs_lt habs
          have habs' : stackAbs s { th with stackData := th.stackData.set a v } = .ok a := habs
          have hget : (th.stackData.set a v).get? a = some v := by
            simp [List.get?_eq_getElem?, List.getElem?_set_self', Nat.lt_of_lt_of_le ha hlen]
          simp only [storeLoadSpec, idxLoad, habs', hget]
  | reg n =>
      simp only [idxStore] at h
      split at h
      · -- n = 0 : PC store
        next hn0 =>
          subst hn0
          split at h
          · cases h
          · next p hpv =>
              split at h
              · cases h
              · next hrange =>
                  injection h with h'
                  subst h'
                  exact show ∃ q, pcValue v = some q ∧ 0 ≤ q ∧ q ≤ (th.code.length : Int)
                      ∧ ({ th with pc := p } : Thread) = { th with pc := q }
                      ∧ idxLoad (.reg 0) ({ th with pc := p } : Thread) = .ok (.vint q) from
                    ⟨p, hpv, by omega, by omega, rfl, rfl⟩
      · split at h
        · -- n = 1 : EBP store never succeeds
          cases h
        · split at h
          · -- n = 2 : ESP store
            next hn0 hn1 hn2 =>
              subst hn2
              obtain ⟨sp, hsp, hebp, hcast⟩ := espStore_ok_spec h
              refine show ∃ q, tointE v = .ok q ∧ th.ebp ≤ q ∧ (th'.stackLen : Int) = q
                  ∧ idxLoad (.reg 2) th' = .ok (.vint q) from ⟨sp, hsp, hebp, hcast, ?_⟩
              show Except.ok (Value.vint (th'.stackLen : Int)) = .ok (.vint sp)
              rw [hcast]
          · -- plain register cell
            next hn0 hn1 hn2 =>
              split at h
              · cases h
              · next hri =>
                  injection h with h'
                  subst h'
                  push_neg at hri
                  simp only [storeLoadSpec, if_neg hn0, if_neg hn1, if_neg hn2, idxLoad]
                  rw [List.length_set]
                  rw [if_neg (by push_neg; exact hri)]
                  have hget : (th.reg.set (n - 3).toNat v).get? (n - 3).toNat = some v := by
                    simp [List.get?_eq_getElem?, List.getElem?_set_self',
                      show (n - 3).toNat < th.reg.length by omega]
                  rw [hget]


/-- Witness for `store_then_load`: storing `Int(7)` in register 5. -/
theorem store_then_load_witness :
    storeLoadSpec (.reg 5) (.vint 7)
      { pc := 0, code := [7], consts := [], ebp := 0,
        stackData := [.vint 9, .vnil], stackLen := 1, frames := [],
        reg := List.replicate 8 .vnil }
      { pc := 0, code := [7], consts := [], ebp := 0,
        stackData := [.vint 9, .vnil], stackLen := 1, frames := [],
        reg := (List.replicate 8 Value.vnil).set 2 (.vint 7) } :=
  store_then_load (.reg 5) (.vint 7) _ _ (by decide) (by rfl)

/-- In a thread with a nil tail, every backing slot at or beyond any
position `m ≥ stackLen` is nil. -/
theorem tailNil_drop_ge {th : Thread} (ht : tailNil th) {m : Nat} (hm : th.stackLen ≤ m)
    {x : Value} (hx : x ∈ th.stackData.drop m) : x = Value.vnil := by
  apply ht
  have hd : th.stackData.drop m = (th.stackData.drop th.stackLen).drop (m - th.stackLen) := by
    rw [List.drop_drop]
    congr 1
    omega
  rw [hd] at hx
  exact List.drop_subset _ _ hx

/-- Reading the middle segment of a three-part concatenation. -/
theorem take_drop_mid (A B C : List Value) (ka n : Nat)
    (hA : A.length = ka) (hn : n = ka + B.length) :
    ((A ++ (B ++ C)).take n).drop ka = B := by
  subst hn; subst hA
  rw [List.take_append B.length, ← Nat.add_zero B.length, List.take_append 0,
    List.take_zero, List.append_nil, List.drop_left]

/-- A successful `resizeStack k` preserves the nil-tail invariant and
leaves every backing slot in `[k, previous length)` nil. -/
theorem resizeStack_ok_spec (th : Thread) (hlen : th.stackLen ≤ th.stackData.length)
    (ht : tailNil th) {k : Int} {th' : Thread} (h : resizeStack k th = .ok th') :
    tailNil th'
      ∧ (th'.stackData.take th.stackLen).drop k.toNat
          = List.replicate (th.stackLen - k.toNat) Value.vnil := by
  unfold resizeStack at h
  split at h
  · next hk =>
      injection h with h'
      subst h'
      refine ⟨ht, ?_⟩
      have h2 : th.stackLen - k.toNat = 0 := by omega
      rw [h2, List.replicate_zero, List.drop_eq_nil_of_le]
      rw [List.length_take]
      omega
  · split at h
    · cases h
    · next hk hneg =>
        injection h with h'
        subst h'
        have hkn : k.toNat ≤ th.stackLen := by omega
        have hA : (th.stackData.take k.toNat).length = k.toNat := by
          rw [List.length_take]; omega
        constructor
        · intro x hx
          simp only at hx
          rw [List.append_assoc, List.drop_left' hA] at hx
          rcases List.mem_append.mp hx with hx | hx
          · exact List.eq_of_mem_replicate hx
          · exact tailNil_drop_ge ht (le_refl _) hx
        · simp only
          rw [List.append_assoc, take_drop_mid _ _ _ _ _ hA
            (by rw [List.length_replicate]; omega)]



/-- Dropping past the first part of a concatenation. -/
theorem drop_append_ge (A C : List Value) (n : Nat) (h : A.length ≤ n) :
    (A ++ C).drop n = C.drop (n - A.length) := by
  rw [show n = A.length + (n - A.length) by omega, List.drop_append]
  congr 1
  omega

/-- `copyAndResizeStack` (the body of `popFrame`/`replaceFrame`)
preserves the nil-tail invariant: the down-copy moves values only within
the live stack window, and the final resize nils the dropped tail. -/
theorem copyAndResizeStack_tailNil (th : Thread)
    (hlen : th.stackLen ≤ th.stackData.length) (ht : tailNil th)
    {newTop keep : Int} {th' : Thread}
    (h : copyAndResizeStack newTop keep th = .ok th') : tailNil th' := by
  unfold copyAndResizeStack at h
  split at h
  · cases h
  · split at h
    · cases h
    · split at h
      · injection h with h'
        subst h'
        exact ht
      · split at h
        · next c1 c2 c3 c4 =>
            simp only [] at h
            split at h
            · cases h
            · next c5 =>
                refine (resizeStack_ok_spec _ ?_ ?_ h).1
                · dsimp only
                  rw [List.length_append, List.length_append, List.length_take,
                    List.length_take, List.length_drop, List.length_drop]
                  omega
                · intro x hx
                  apply ht
                  dsimp only at hx
                  set AB := th.stackData.take newTop.toNat
                      ++ (th.stackData.drop ((th.stackLen : Int) - keep).toNat).take keep.toNat
                    with hABdef
                  set C := th.stackData.drop (newTop.toNat + keep.toNat) with hCdef
                  have hABl : AB.length = newTop.toNat + keep.toNat := by
                    rw [hABdef, List.length_append, List.length_take, List.length_take,
                      List.length_drop]
                    omega
                  rw [drop_append_ge AB C th.stackLen (by omega)] at hx
                  rw [hCdef, List.drop_drop] at hx
                  rw [show newTop.toNat + keep.toNat + (th.stackLen - AB.length)
                      = th.stackLen by omega] at hx
                  exact hx
        · exact (resizeStack_ok_spec _ hlen ht h).1

/-- `growStack` preserves the nil-tail invariant (fresh capacity is
zero-filled and the old tail is nil) and does not change the length. -/
theorem growStack_tailNil (elems : Int) (th : Thread)
    (hlen : th.stackLen ≤ th.stackData.length) (ht : tailNil th) :
    tailNil (growStack elems th) ∧ (growStack elems th).stackLen = th.stackLen := by
  unfold growStack
  simp only []
  split
  · exact ⟨ht, rfl⟩
  · constructor
    · intro x hx
      dsimp only at hx
      rw [drop_append_ge _ _ _ (by rw [List.length_take]; omega)] at hx
      exact List.eq_of_mem_replicate (List.drop_subset _ _ hx)
    · rfl

/-- A successful ESP write preserves the nil-tail invariant: shrinking
nils the dropped slots, growing exposes only zero-filled capacity. -/
theorem espStore_tailNil (th : Thread) (hlen : th.stackLen ≤ th.stackData.length)
    (ht : tailNil th) {v : Value} {th' : Thread}
    (h : espStore v th = .ok th') : tailNil th' := by
  unfold espStore at h
  split at h
  · cases h
  · next sp hsp =>
    split at h
    · cases h
    · next h1 =>
      split at h
      · exact (resizeStack_ok_spec th hlen ht h).1
      · next h2 =>
        split at h
        · next h3 =>
          simp only [] at h
          split at h
          · next h4 =>
            injection h with h'
            subst h'
            intro x hx
            dsimp only at hx
            obtain ⟨ht2, hlen2⟩ :=
              growStack_tailNil (sp - th.stackData.length) th hlen ht
            exact tailNil_drop_ge ht2 (by rw [hlen2]; omega) hx
          · cases h
        · next h3 =>
          split at h
          · next h4 =>
            injection h with h'
            subst h'
            intro x hx
            dsimp only at hx
            exact tailNil_drop_ge ht (by omega) hx
          · next h4 =>
            injection h with h'
            subst h'
            exact ht


/-- **C9.**  On any thread whose stack satisfies the canonical-empty-tail
invariant, every stack-shrinking operation maintains it, and an explicit
`resizeStack k` additionally leaves the backing slots at positions
`[k, previous length)` holding the neutral value: this holds for
`resizeStack`, `Pop`, `popFrame(keep)` and writes to the ESP register. -/
theorem stack_shrink_nulls_tail (th : Thread)
    (hlen : th.stackLen ≤ th.stackData.length) (ht : tailNil th) :
    (∀ (k : Int) (th' : Thread), resizeStack k th = .ok th' →
        tailNil th'
          ∧ (th'.stackData.take th.stackLen).drop k.toNat
              = List.replicate (th.stackLen - k.toNat) Value.vnil)
      ∧ (∀ (v : Value) (th' : Thread), popValue th = .ok (v, th') → tailNil th')
      ∧ (∀ (keep : Int) (th' : Thread), popFrame keep th = .ok th' → tailNil th')
      ∧ (∀ (v : Value) (th' : Thread), idxStore (.reg 2) v th = .ok th' → tailNil th') := by
  refine ⟨fun k th' h => resizeStack_ok_spec th hlen ht h, ?_, ?_, ?_⟩
  · intro v th' h
    unfold popValue at h
    split at h
    · cases h
    · split at h
      · cases h
      · split at h
        · cases h
        · next th2 hres =>
            injection h with h'
            injection h' with h1 h2
            subst h2
            exact (resizeStack_ok_spec th hlen ht hres).1
  · intro keep th' h
    unfold popFrame at h
    split at h
    · cases h
    · next fr hfr =>
        split at h
        · cases h
        · next th2 hc =>
            injection h with h'
            subst h'
            have ht2 : tailNil th2 :=
              copyAndResizeStack_tailNil
                { th with frames := th.frames.dropLast } hlen ht hc
            intro x hx
            exact ht2 x hx
  · intro v th' h
    have hesp : espStore v th = .ok th' := h
    exact espStore_tailNil th hlen ht hesp


/-- Witness for `stack_shrink_nulls_tail`: resizing a one-element stack
with two backing slots down to zero. -/
theorem stack_shrink_nulls_tail_witness :
    tailNil { pc := 0, code := [], consts := [], ebp := 0,
              stackData := [Value.vnil, Value.vnil], stackLen := 0, frames := [],
              reg := [] }
      ∧ (([Value.vnil, Value.vnil].take 1).drop (0 : Int).toNat
          = List.replicate (1 - (0 : Int).toNat) Value.vnil) :=
  (stack_shrink_nulls_tail
      { pc := 0, code := [], consts := [], ebp := 0,
        stackData := [.vint 5, .vnil], stackLen := 1, frames := [], reg := [] }
      (by decide) (by decide)).1 0
    { pc := 0, code := [], consts := [], ebp := 0,
      stackData := [Value.vnil, Value.vnil], stackLen := 0, frames := [],
      reg := [] }
    (by rfl)

end Rusalka
